import Mathlib

set_option autoImplicit false

namespace MediaServer

/-! ## Identifier codec (src/utils/pathUtils.js)

Strings are modelled at the byte level: a JS string is represented by the
list of bytes of its UTF-8 encoding (`Buffer.from(str, 'utf8')` /
`buf.toString('utf8')` are the identity on this representation).
Tokens are lists of characters. -/
/-- Byte-level view of an ASCII string literal (helper for concrete inputs). -/
def strB (s : String) : List Nat := s.toList.map Char.toNat

/-- Base64 alphabet character for a sextet value (0–63). -/
def b64Char (n : Nat) : Char :=
  if n < 26 then Char.ofNat (65 + n)
  else if n < 52 then Char.ofNat (97 + (n - 26))
  else if n < 62 then Char.ofNat (48 + (n - 52))
  else if n = 62 then '+'
  else '/'

/-- `Buffer.prototype.toString('base64')`: standard base64 with `'='` padding,
three input bytes per four output characters. -/
def base64Encode : List Nat → List Char
  | [] => []
  | [b1] => [b64Char (b1 / 4), b64Char (b1 % 4 * 16), '=', '=']
  | [b1, b2] => [b64Char (b1 / 4), b64Char (b1 % 4 * 16 + b2 / 16), b64Char (b2 % 16 * 4), '=']
  | b1 :: b2 :: b3 :: rest =>
      b64Char (b1 / 4) :: b64Char (b1 % 4 * 16 + b2 / 16) ::
      b64Char (b2 % 16 * 4 + b3 / 64) :: b64Char (b3 % 64) :: base64Encode rest

/-- The replace step of `toBase64Url`: `'+'` becomes `'-'`, `'/'` becomes `'_'`. -/
def urlSafeChar (c : Char) : Char :=
  if c = '+' then '-' else if c = '/' then '_' else c

/-- The padding-strip step of `toBase64Url`: drop every trailing `'='`. -/
def stripTrailingEq (l : List Char) : List Char :=
  (l.reverse.dropWhile (fun c => c == '=')).reverse

/-- `toBase64Url` from src/utils/pathUtils.js: UTF-8 bytes → base64 →
URL-safe character replacement → strip padding. -/
def toBase64Url (bytes : List Nat) : List Char :=
  stripTrailingEq ((base64Encode bytes).map urlSafeChar)

/-- Value of a base64 alphabet character; `none` for every other character
(including `'='`). -/
def b64Val (c : Char) : Option Nat :=
  if 65 ≤ c.toNat ∧ c.toNat ≤ 90 then some (c.toNat - 65)
  else if 97 ≤ c.toNat ∧ c.toNat ≤ 122 then some (c.toNat - 97 + 26)
  else if 48 ≤ c.toNat ∧ c.toNat ≤ 57 then some (c.toNat - 48 + 52)
  else if c = '+' then some 62
  else if c = '/' then some 63
  else none

/-- Reassemble bytes from a list of sextets, four sextets per three bytes;
a trailing group of two or three sextets yields one or two bytes. -/
def decodeQuads : List Nat → List Nat
  | a :: b :: c :: d :: rest =>
      (a * 4 + b / 16) :: (b % 16 * 16 + c / 4) :: (c % 4 * 64 + d) :: decodeQuads rest
  | [a, b] => [a * 4 + b / 16]
  | [a, b, c] => [a * 4 + b / 16, b % 16 * 16 + c / 4]
  | _ => []

/-- `Buffer.from(s, 'base64')`: Node's base64 decoder never throws — characters
outside the alphabet (`'='` included) are skipped, and the remaining sextets
are reassembled into bytes. -/
def nodeBase64Decode (s : List Char) : List Nat :=
  decodeQuads (s.filterMap b64Val)

/-- The replace step of `fromBase64Url`: `'-'` becomes `'+'`, `'_'` becomes `'/'`. -/
def unUrlChar (c : Char) : Char :=
  if c = '-' then '+' else if c = '_' then '/' else c

/-- `fromBase64Url` from src/utils/pathUtils.js: re-pad with `'='` to a
multiple of four, undo the URL-safe replacement, base64-decode. The result
is the byte list of the decoded string. -/
def fromBase64Url (b64 : List Char) : List Nat :=
  let pad : List Char :=
    if b64.length % 4 = 0 then [] else List.replicate (4 - b64.length % 4) '='
  nodeBase64Decode (b64.map unUrlChar ++ pad)

/-! ### Codec lemmas -/
/-- The base64 characters of `base64Encode` before the `'='` padding. -/
def b64Body : List Nat → List Char
  | [] => []
  | [b1] => [b64Char (b1 / 4), b64Char (b1 % 4 * 16)]
  | [b1, b2] => [b64Char (b1 / 4), b64Char (b1 % 4 * 16 + b2 / 16), b64Char (b2 % 16 * 4)]
  | b1 :: b2 :: b3 :: rest =>
      b64Char (b1 / 4) :: b64Char (b1 % 4 * 16 + b2 / 16) ::
      b64Char (b2 % 16 * 4 + b3 / 64) :: b64Char (b3 % 64) :: b64Body rest

/-- The `'='` padding that `base64Encode` appends after the body. -/
def eqPad : List Nat → List Char
  | [] => []
  | [_] => ['=', '=']
  | [_, _] => ['=']
  | _ :: _ :: _ :: rest => eqPad rest

/-- The sextet values carried by the body characters of `base64Encode`. -/
def sextetsOf : List Nat → List Nat
  | [] => []
  | [b1] => [b1 / 4, b1 % 4 * 16]
  | [b1, b2] => [b1 / 4, b1 % 4 * 16 + b2 / 16, b2 % 16 * 4]
  | b1 :: b2 :: b3 :: rest =>
      (b1 / 4) :: (b1 % 4 * 16 + b2 / 16) :: (b2 % 16 * 4 + b3 / 64) :: (b3 % 64) :: sextetsOf rest

/-- A character that needs no percent-encoding in a URL path segment and is
not base64 padding: alphanumeric, `'-'` or `'_'`. -/
def urlPathSafeChar (c : Char) : Bool :=
  c.isAlphanum || c == '-' || c == '_'

/-! ## Range Resolver (lines 127–176 of the stream handler) -/
/-- The digit class of the regex (ASCII `'0'`–`'9'`). -/
def isDig (c : Char) : Bool := 48 ≤ c.toNat && c.toNat ≤ 57

/-- `parseInt(s, 10)` on a non-empty string of decimal digits. -/
def digitsVal (l : List Char) : Int :=
  l.foldl (fun acc c => acc * 10 + ((c.toNat : Int) - 48)) 0

/-- One attempt of the pattern `bytes=(digits*)-(digits*)` at a fixed start
position: the literal `bytes=`, a maximal digit run, `'-'`, a second maximal
digit run (the greedy star followed by a non-digit needs no backtracking). -/
def matchRangeAt (s : List Char) : Option (List Char × List Char) :=
  match s with
  | 'b' :: 'y' :: 't' :: 'e' :: 's' :: '=' :: t =>
      let d1 := t.takeWhile isDig
      match t.drop d1.length with
      | '-' :: t2 => some (d1, t2.takeWhile isDig)
      | _ => none
  | _ => none

/-- `range.match(...)` with the unanchored single-range pattern: the regex
engine tries every start position from the left. -/
def findRangeMatch : List Char → Option (List Char × List Char)
  | [] => none
  | c :: rest =>
      match matchRangeAt (c :: rest) with
      | some r => some r
      | none => findRangeMatch rest

inductive RangeResult where
  | fullFile
  | unsatisfiable
  | window (start stop : Int)
deriving DecidableEq

/-- The bounds validation of line 173: `start < 0 || end >= fileSize ||
start > end` rejects with 416. -/
def boundsCheck (st en fileSize : Int) : RangeResult :=
  if st < 0 ∨ en ≥ fileSize ∨ st > en then .unsatisfiable else .window st en

/-- Lines 127–176: resolve the Range header against the file size into
full-file, a byte window, or a 416 rejection. -/
def resolveRange (range : Option (List Char)) (fileSize : Int) : RangeResult :=
  match range with
  | none => .fullFile
  | some s =>
      match findRangeMatch s with
      | none => .unsatisfiable
      | some (g1, g2) =>
          let st? : Option Int := if g1.isEmpty then none else some (digitsVal g1)
          let en? : Option Int := if g2.isEmpty then none else some (digitsVal g2)
          match st?, en? with
          | none, none => .unsatisfiable
          | some st, none => boundsCheck st (fileSize - 1) fileSize
          | none, some suffix =>
              if suffix = 0 then .unsatisfiable
              else boundsCheck (max (fileSize - suffix) 0) (fileSize - 1) fileSize
          | some st, some en => boundsCheck st en fileSize

/-- A header exactly in the single-range grammar `bytes=<start>-<end>`. -/
def rangeHeader (d1 d2 : List Char) : List Char :=
  "bytes=".toList ++ d1 ++ '-' :: d2

/-- `specResolveRange` follows the words of spec §4.3 steps 3–4: first the
three header shapes produce a window, then one uniform bounds check rejects
with `Unsatisfiable` when `start < 0`, `end ≥ fileSize` or `start > end`. -/
def specResolveRange (st? en? : Option Int) (fileSize : Int) : RangeResult :=
  match st?, en? with
  | none, none => .unsatisfiable
  | some st, some en => specBoundsCheck st en fileSize
  | some st, none => specBoundsCheck st (fileSize - 1) fileSize
  | none, some n =>
      if n = 0 then .unsatisfiable
      else specBoundsCheck (max (fileSize - n) 0) (fileSize - 1) fileSize
where
  specBoundsCheck (st en fileSize : Int) : RangeResult :=
    if st < 0 ∨ en ≥ fileSize ∨ st > en then .unsatisfiable else .window st en

/-! ## Filesystem model

The POSIX filesystem the server runs against, modelled as a tree. A path is
a list of segments, each segment a byte string. `readable` records whether a
`readdir` on the directory succeeds (permissions / deletion races). -/
inductive FsNode where
  | file (content : List Nat)
  | dir (readable : Bool) (children : List (List Nat × FsNode))

/-- Look up a directory entry by name (names are unique in a real directory;
well-formedness assumptions make this the unique match). -/
def findChild (name : List Nat) : List (List Nat × FsNode) → Option FsNode
  | [] => none
  | (n, node) :: rest => if n = name then some node else findChild name rest

/-- Resolve an absolute, normalised segment path in the tree; `none` when a
component is missing or a non-final component is a file (`stat` throws). -/
def navigate (node : FsNode) : List (List Nat) → Option FsNode
  | [] => some node
  | seg :: rest =>
      match node with
      | .file _ => none
      | .dir _ cs =>
          match findChild seg cs with
          | some child => navigate child rest
          | none => none

/-- Split a byte string on `'/'` (47), the POSIX path separator. -/
def splitSlash : List Nat → List (List Nat)
  | [] => [[]]
  | b :: rest =>
      if b = 47 then [] :: splitSlash rest
      else
        match splitSlash rest with
        | [] => [[b]]
        | seg :: segs => (b :: seg) :: segs

/-- Join segments with `'/'`. -/
def joinSegs : List (List Nat) → List Nat
  | [] => []
  | [s] => s
  | s :: rest => s ++ 47 :: joinSegs rest

/-- `path.normalize` on an absolute path, at the segment level: empty and `.`
segments vanish, `..` removes the previous segment and is dropped when
already at the root. -/
def normSegs (segs : List (List Nat)) : List (List Nat) :=
  segs.foldl
    (fun acc seg =>
      if seg = [] ∨ seg = [46] then acc
      else if seg = [46, 46] then acc.dropLast
      else acc ++ [seg])
    []

/-- `path.join(MEDIA_DIR, fileName)`: concatenate and normalise. `root` is the
already-resolved absolute media root (`path.resolve(process.env.MEDIA_DIR)`). -/
def joinPath (root : List (List Nat)) (fileName : List Nat) : List (List Nat) :=
  normSegs (root ++ splitSlash fileName)

def isFileNode : FsNode → Bool
  | .file _ => true
  | .dir _ _ => false

/-- `stat.size`; the size of a directory node plays no role in the claims. -/
def nodeSize : FsNode → Nat
  | .file c => c.length
  | .dir _ _ => 0

def nodeContent : FsNode → List Nat
  | .file c => c
  | .dir _ _ => []

/-- Last path segment (the base name). -/
def lastSeg (bytes : List Nat) : List Nat := (splitSlash bytes).getLastD []

/-- `path.extname`: the suffix of the base name from its last `'.'` (46),
empty when the base name has no dot or only a leading dot. -/
def extname (p : List Nat) : List Nat :=
  let name := lastSeg p
  let afterDot := (name.reverse.takeWhile (fun b => b != 46)).reverse
  if afterDot.length = name.length then []
  else if afterDot.length + 1 = name.length then []
  else 46 :: afterDot

/-- ASCII `toLowerCase` on a byte. -/
def lowerByte (b : Nat) : Nat := if 65 ≤ b ∧ b ≤ 90 then b + 32 else b

def lowerBytes (l : List Nat) : List Nat := l.map lowerByte

/-- The `VIDEO_EXTS` allow-list of line 19. -/
def VIDEO_EXTS : List (List Nat) :=
  [strB ".mp4", strB ".mkv", strB ".avi", strB ".mov", strB ".m4v", strB ".webm"]

def isVideoExt (e : List Nat) : Bool := VIDEO_EXTS.contains e

/-- Modelled from the spec: `mime.lookup` of the external mime-types library —
"MIME-type lookup (assume a library mapping file extension → content type)" —
is the lookup of the name's lowercased extension in a database `db`, with the
source's `|| 'application/octet-stream'` fallback for the `false` result. -/
def mimeLookup (db : List Nat → Option (List Char)) (name : List Nat) : List Char :=
  match db (lowerBytes (extname name)) with
  | some t => t
  | none => "application/octet-stream".toList

/-- Catalog entry produced by `listMedia` (lines 73–79). -/
structure MediaEntry where
  id : List Char
  name : List Nat
  path : List Nat
  size : Nat
  mime : List Char
deriving DecidableEq

/-- Object produced by `getMediaById` (lines 96–101) — note: no `path` field. -/
structure MediaInfo where
  id : List Char
  name : List Nat
  size : Nat
  mime : List Char
deriving DecidableEq

mutual
/-- `listMedia(dir)` of lines 49–82: `readdir` the directory (an unreadable
directory or a non-directory throws, caught → empty list), recurse into
subdirectories, keep regular files with an allow-listed extension. `rel` is
the segment path from the media root to this directory. -/
def listMedia (db : List Nat → Option (List Char)) :
    FsNode → List (List Nat) → List MediaEntry
  | .file _, _ => []
  | .dir false _, _ => []
  | .dir true cs, rel => listMediaChildren db cs rel
/-- The `for (const dirent of entries)` loop body of lines 58–80: a
subdirectory dirent contributes its recursive listing, a file dirent its
entry when the extension is allow-listed. -/
def listMediaChildren (db : List Nat → Option (List Char)) :
    List (List Nat × FsNode) → List (List Nat) → List MediaEntry
  | [], _ => []
  | (n, .dir ro cs) :: rest, rel =>
      listMedia db (.dir ro cs) (rel ++ [n]) ++ listMediaChildren db rest rel
  | (n, .file content) :: rest, rel =>
      (if isVideoExt (lowerBytes (extname n)) then
        [{ id := toBase64Url (joinSegs (rel ++ [n])),
           name := n,
           path := joinSegs (rel ++ [n]),
           size := content.length,
           mime := mimeLookup db n }]
      else []) ++ listMediaChildren db rest rel
end

/-- `getMediaById` of lines 85–105: decode the id, join against the root,
`stat`, require a regular file with allow-listed extension; every failure
(including a failing `stat`) yields `null`. -/
def getMediaById (world : FsNode) (root : List (List Nat))
    (db : List Nat → Option (List Char)) (id : List Char) : Option MediaInfo :=
  let fileName := fromBase64Url id
  let full := joinPath root fileName
  match navigate world full with
  | none => none
  | some node =>
      if isFileNode node then
        if isVideoExt (lowerBytes (extname fileName)) then
          some { id := id, name := fileName, size := nodeSize node,
                 mime := mimeLookup db fileName }
        else none
      else none

/-- Status of the `GET /media/:id` route (lines 199–203). -/
def mediaByIdStatus (world : FsNode) (root : List (List Nat))
    (db : List Nat → Option (List Char)) (id : List Char) : Nat :=
  match getMediaById world root db id with
  | some _ => 200
  | none => 404

/-! ## Stream responder (GET /stream/:id, lines 108–190) -/
/-- The response surface observable from the handler: status, the headers it
sets, and the streamed bytes. -/
structure StreamResp where
  status : Nat
  contentType : Option (List Char)
  contentLength : Option Int
  contentRange : Option (List Char)
  acceptRanges : Bool
  body : List Nat
deriving DecidableEq

/-- Decimal rendering of a JS number in a template string. -/
def intDec (i : Int) : List Char := (toString i).toList

def contentRangeWindow (s e fileSize : Int) : List Char :=
  "bytes ".toList ++ intDec s ++ '-' :: intDec e ++ '/' :: intDec fileSize

def contentRangeStar (fileSize : Int) : List Char :=
  "bytes */".toList ++ intDec fileSize

def jsonErrBody (msg : String) : List Nat := strB msg

/-- Lines 128–190, after the Range header has been resolved: 200 with the
whole body, 416 with `Content-Range: bytes */S` and empty body, or 206 with
the window headers and exactly the bytes `[start, end]` of the file. -/
def respond (resolved : RangeResult) (fileSize : Int) (mt : List Char)
    (content : List Nat) : StreamResp :=
  match resolved with
  | .fullFile =>
      { status := 200, contentType := some mt, contentLength := some fileSize,
        contentRange := none, acceptRanges := true, body := content }
  | .unsatisfiable =>
      { status := 416, contentType := none, contentLength := none,
        contentRange := some (contentRangeStar fileSize), acceptRanges := false,
        body := [] }
  | .window s e =>
      { status := 206, contentType := some mt, contentLength := some (e - s + 1),
        contentRange := some (contentRangeWindow s e fileSize),
        acceptRanges := true,
        body := (content.drop s.toNat).take (e - s + 1).toNat }

/-- The `GET /stream/:id` handler. The decode step sits in a `try`/`catch`
whose catch returns 400; `Buffer.from(id, 'base64')` never throws (invalid
characters are skipped), so the decode is the always-`ok` `Except` below.
Then: existence check (404), `stat`, Range resolution, response. -/
def streamHandler (world : FsNode) (root : List (List Nat))
    (db : List Nat → Option (List Char)) (id : List Char)
    (range : Option (List Char)) : StreamResp :=
  match (Except.ok (fromBase64Url id) : Except Unit (List Nat)) with
  | .error _ =>
      { status := 400, contentType := none, contentLength := none,
        contentRange := none, acceptRanges := false,
        body := jsonErrBody "ID invalido" }
  | .ok fileName =>
      let full := joinPath root fileName
      match navigate world full with
      | none =>
          { status := 404, contentType := none, contentLength := none,
            contentRange := none, acceptRanges := false,
            body := jsonErrBody "Archivo no encontrado" }
      | some node =>
          respond (resolveRange range (nodeSize node)) (nodeSize node)
            (mimeLookup db (joinSegs full)) (nodeContent node)

/-! ## Filesystem well-formedness

POSIX invariants of real directory trees, used as hypotheses: directory entry
names are nonempty byte strings without `'/'`, never `.` or `..`, and are
unique within their directory. -/
/-- A path segment that the normalisation of `path.join` leaves alone. -/
def plainSegB (s : List Nat) : Bool :=
  !(s == []) && !(s == [46]) && !(s == [46, 46])

/-- A byte string that can occur as a directory entry name. -/
def validNameB (n : List Nat) : Bool :=
  plainSegB n && n.all (fun b => decide (b < 256) && b != 47)

/-- Entry names are pairwise distinct within the directory. -/
def namesNodup : List (List Nat × FsNode) → Bool
  | [] => true
  | (n, _) :: rest => rest.all (fun p => !(p.1 == n)) && namesNodup rest

mutual
/-- Well-formed tree: every directory has valid, pairwise-distinct entry
names. -/
def wfNodeB : FsNode → Bool
  | .file _ => true
  | .dir _ cs => namesNodup cs && wfChildrenB cs
def wfChildrenB : List (List Nat × FsNode) → Bool
  | [] => true
  | (n, c) :: rest => validNameB n && wfNodeB c && wfChildrenB rest
end

/-- What `listMedia` guarantees about each entry it emits: a path of valid
segments leading from the scanned directory to a regular file with
allow-listed extension, whose metadata the entry carries. -/
def EntrySpec (db : List Nat → Option (List Char)) (node : FsNode)
    (rel : List (List Nat)) (e : MediaEntry) : Prop :=
  ∃ segs name content,
    navigate node (segs ++ [name]) = some (.file content) ∧
    (∀ s ∈ segs ++ [name], validNameB s = true) ∧
    e.id = toBase64Url (joinSegs (rel ++ (segs ++ [name]))) ∧
    e.name = name ∧
    e.path = joinSegs (rel ++ (segs ++ [name])) ∧
    e.size = content.length ∧
    e.mime = mimeLookup db name ∧
    isVideoExt (lowerBytes (extname name)) = true

/-! ## Concrete worlds used by witnesses and counterexamples -/
/-- A mime database with no entries: every lookup falls back to
`application/octet-stream`. -/
def demoDb : List Nat → Option (List Char) := fun _ => none

/-- `/m/a.mp4` with bytes `[10, 20, 30]`; media root `/m`. -/
def demoWorld : FsNode :=
  .dir true [(strB "m", .dir true [(strB "a.mp4", .file [10, 20, 30])])]

def demoRoot : List (List Nat) := [strB "m"]

def demoId : List Char := toBase64Url (strB "a.mp4")

/-- Media root content `sub/b.mkv` for the subdirectory lookup claims. -/
def subNode : FsNode :=
  .dir true [(strB "sub", .dir true [(strB "b.mkv", .file [1, 2, 3])])]

/-- `/m/sub/b.mkv`; media root `/m`. -/
def subWorld : FsNode := .dir true [(strB "m", subNode)]

def subRoot : List (List Nat) := [strB "m"]

/-- The one catalog entry the scan of `subNode` produces. -/
def subEntry : MediaEntry :=
  { id := toBase64Url (strB "sub/b.mkv"), name := strB "b.mkv",
    path := strB "sub/b.mkv", size := 3,
    mime := "application/octet-stream".toList }

/-- `/media` (the empty media root) next to `/secret.mp4` outside it. -/
def evilWorld : FsNode :=
  .dir true [(strB "media", .dir true []), (strB "secret.mp4", .file [9, 9, 9])]

def evilRoot : List (List Nat) := [strB "media"]

/-- A token whose decoded value escapes the media root via `..`. -/
def evilId : List Char := toBase64Url (strB "../secret.mp4")

example : toBase64Url (strB "a.mp4") = "YS5tcDQ".toList := by decide

example : fromBase64Url "YS5tcDQ".toList = strB "a.mp4" := by decide

example : fromBase64Url (toBase64Url (strB "../secret.mp4")) = strB "../secret.mp4" := by
  decide

theorem base64Encode_eq_body_pad : ∀ bs : List Nat, base64Encode bs = b64Body bs ++ eqPad bs
  | [] => rfl
  | [_] => rfl
  | [_, _] => rfl
  | _ :: _ :: _ :: rest => by
      simp [base64Encode, b64Body, eqPad, base64Encode_eq_body_pad rest]

theorem eqPad_all_eq : ∀ bs : List Nat, ∀ c ∈ eqPad bs, c = '='
  | [] => by simp [eqPad]
  | [_] => by simp [eqPad]
  | [_, _] => by simp [eqPad]
  | _ :: _ :: _ :: rest => by simpa [eqPad] using eqPad_all_eq rest

theorem mem_b64Body : ∀ bs : List Nat, (∀ b ∈ bs, b < 256) →
    ∀ c ∈ b64Body bs, ∃ n, n < 64 ∧ c = b64Char n
  | [], _ => by simp [b64Body]
  | [b1], h => by
      have h1 : b1 < 256 := h b1 (by simp)
      intro c hc
      rcases (by simpa [b64Body] using hc : c = b64Char (b1 / 4) ∨ c = b64Char (b1 % 4 * 16))
        with rfl | rfl
      · exact ⟨b1 / 4, by omega, rfl⟩
      · exact ⟨b1 % 4 * 16, by omega, rfl⟩
  | [b1, b2], h => by
      have h1 : b1 < 256 := h b1 (by simp)
      have h2 : b2 < 256 := h b2 (by simp)
      intro c hc
      rcases (by simpa [b64Body] using hc :
          c = b64Char (b1 / 4) ∨ c = b64Char (b1 % 4 * 16 + b2 / 16) ∨
          c = b64Char (b2 % 16 * 4)) with rfl | rfl | rfl
      · exact ⟨b1 / 4, by omega, rfl⟩
      · exact ⟨b1 % 4 * 16 + b2 / 16, by omega, rfl⟩
      · exact ⟨b2 % 16 * 4, by omega, rfl⟩
  | b1 :: b2 :: b3 :: rest, h => by
      have h1 : b1 < 256 := h b1 (by simp)
      have h2 : b2 < 256 := h b2 (by simp)
      have h3 : b3 < 256 := h b3 (by simp)
      intro c hc
      rcases (by simpa [b64Body] using hc :
          c = b64Char (b1 / 4) ∨ c = b64Char (b1 % 4 * 16 + b2 / 16) ∨
          c = b64Char (b2 % 16 * 4 + b3 / 64) ∨ c = b64Char (b3 % 64) ∨ c ∈ b64Body rest)
        with rfl | rfl | rfl | rfl | hmem
      · exact ⟨b1 / 4, by omega, rfl⟩
      · exact ⟨b1 % 4 * 16 + b2 / 16, by omega, rfl⟩
      · exact ⟨b2 % 16 * 4 + b3 / 64, by omega, rfl⟩
      · exact ⟨b3 % 64, by omega, rfl⟩
      · exact mem_b64Body rest (fun b hb => h b (by simp [hb])) c hmem

theorem b64Char_decode_inverse :
    ∀ n, n < 64 → b64Val (unUrlChar (urlSafeChar (b64Char n))) = some n := by decide

theorem b64Char_urlSafe_ne_eq : ∀ n, n < 64 → urlSafeChar (b64Char n) ≠ '=' := by decide

theorem urlSafeChar_eqChar : urlSafeChar '=' = '=' := by decide

theorem rdropWhile_append_all {p : Char → Bool} (x : List Char) :
    ∀ pads : List Char, (∀ c ∈ pads, p c = true) →
      (x ++ pads).rdropWhile p = x.rdropWhile p := by
  intro pads
  induction pads using List.reverseRecOn with
  | nil => simp
  | append_singleton ys y ih =>
      intro hp
      rw [← List.append_assoc, List.rdropWhile_concat_pos _ _ y (hp y (by simp))]
      exact ih (fun c hc => hp c (by simp [hc]))

theorem rdropWhile_eq_self_of {p : Char → Bool} {x : List Char}
    (h : ∀ c ∈ x, ¬p c) : x.rdropWhile p = x :=
  List.rdropWhile_eq_self_iff.mpr (fun hl => h _ (List.getLast_mem hl))

theorem stripTrailingEq_eq_rdropWhile (l : List Char) :
    stripTrailingEq l = l.rdropWhile (fun c => c == '=') := rfl

theorem toBase64Url_eq_map_body (bs : List Nat) (h : ∀ b ∈ bs, b < 256) :
    toBase64Url bs = (b64Body bs).map urlSafeChar := by
  unfold toBase64Url
  rw [base64Encode_eq_body_pad, List.map_append, stripTrailingEq_eq_rdropWhile,
    rdropWhile_append_all _ _ (fun c hc => by
      rcases List.mem_map.mp hc with ⟨d, hd, rfl⟩
      have := eqPad_all_eq bs d hd
      subst this
      simp [urlSafeChar_eqChar]),
    rdropWhile_eq_self_of (fun c hc => by
      rcases List.mem_map.mp hc with ⟨d, hd, rfl⟩
      rcases mem_b64Body bs h d hd with ⟨n, hn, rfl⟩
      simpa using b64Char_urlSafe_ne_eq n hn)]

theorem b64Val_eqChar : b64Val '=' = none := by decide

theorem filterMap_b64Val_replicate_eq :
    ∀ k : Nat, (List.replicate k '=').filterMap b64Val = []
  | 0 => rfl
  | k + 1 => by
      simp [List.replicate_succ, List.filterMap_cons, b64Val_eqChar,
        filterMap_b64Val_replicate_eq k]

theorem b64Body_filterMap : ∀ bs : List Nat, (∀ b ∈ bs, b < 256) →
    (b64Body bs).filterMap (fun c => b64Val (unUrlChar (urlSafeChar c))) = sextetsOf bs
  | [], _ => rfl
  | [b1], h => by
      have h1 : b1 < 256 := h b1 (by simp)
      simp [b64Body, sextetsOf, List.filterMap_cons,
        b64Char_decode_inverse (b1 / 4) (by omega),
        b64Char_decode_inverse (b1 % 4 * 16) (by omega)]
  | [b1, b2], h => by
      have h1 : b1 < 256 := h b1 (by simp)
      have h2 : b2 < 256 := h b2 (by simp)
      simp [b64Body, sextetsOf, List.filterMap_cons,
        b64Char_decode_inverse (b1 / 4) (by omega),
        b64Char_decode_inverse (b1 % 4 * 16 + b2 / 16) (by omega),
        b64Char_decode_inverse (b2 % 16 * 4) (by omega)]
  | b1 :: b2 :: b3 :: rest, h => by
      have h1 : b1 < 256 := h b1 (by simp)
      have h2 : b2 < 256 := h b2 (by simp)
      have h3 : b3 < 256 := h b3 (by simp)
      have ih := b64Body_filterMap rest (fun b hb => h b (by simp [hb]))
      simp [b64Body, sextetsOf, List.filterMap_cons,
        b64Char_decode_inverse (b1 / 4) (by omega),
        b64Char_decode_inverse (b1 % 4 * 16 + b2 / 16) (by omega),
        b64Char_decode_inverse (b2 % 16 * 4 + b3 / 64) (by omega),
        b64Char_decode_inverse (b3 % 64) (by omega), ih]

theorem decodeQuads_sextetsOf : ∀ bs : List Nat, (∀ b ∈ bs, b < 256) →
    decodeQuads (sextetsOf bs) = bs
  | [], _ => rfl
  | [b1], h => by
      have h1 : b1 < 256 := h b1 (by simp)
      simp only [sextetsOf, decodeQuads]
      congr 1
      omega
  | [b1, b2], h => by
      have h1 : b1 < 256 := h b1 (by simp)
      have h2 : b2 < 256 := h b2 (by simp)
      simp only [sextetsOf, decodeQuads]
      congr 1
      · omega
      · congr 1
        omega
  | b1 :: b2 :: b3 :: rest, h => by
      have h1 : b1 < 256 := h b1 (by simp)
      have h2 : b2 < 256 := h b2 (by simp)
      have h3 : b3 < 256 := h b3 (by simp)
      have ih := decodeQuads_sextetsOf rest (fun b hb => h b (by simp [hb]))
      simp only [sextetsOf, decodeQuads, ih]
      congr 1
      · omega
      · congr 1
        · omega
        · congr 1
          omega

/-- Round trip of the codec at the byte level. -/
theorem fromBase64Url_toBase64Url (bs : List Nat) (h : ∀ b ∈ bs, b < 256) :
    fromBase64Url (toBase64Url bs) = bs := by
  have hpadnil : ∀ m : Nat,
      ((if m % 4 = 0 then ([] : List Char) else List.replicate (4 - m % 4) '=').filterMap
        b64Val) = [] := by
    intro m
    split
    · rfl
    · exact filterMap_b64Val_replicate_eq _
  simp only [fromBase64Url, nodeBase64Decode]
  rw [List.filterMap_append, hpadnil, List.append_nil, toBase64Url_eq_map_body bs h,
    List.map_map, List.filterMap_map]
  simp only [Function.comp_def]
  rw [b64Body_filterMap bs h]
  exact decodeQuads_sextetsOf bs h

theorem urlSafeChar_b64Char_safe :
    ∀ n, n < 64 → urlPathSafeChar (urlSafeChar (b64Char n)) = true := by decide

theorem toBase64Url_chars_safe (bs : List Nat) (h : ∀ b ∈ bs, b < 256) :
    ∀ c ∈ toBase64Url bs, urlPathSafeChar c = true := by
  rw [toBase64Url_eq_map_body bs h]
  intro c hc
  rcases List.mem_map.mp hc with ⟨d, hd, rfl⟩
  rcases mem_b64Body bs h d hd with ⟨n, hn, rfl⟩
  exact urlSafeChar_b64Char_safe n hn

theorem toBase64Url_injective {p q : List Nat} (hp : ∀ b ∈ p, b < 256)
    (hq : ∀ b ∈ q, b < 256) (h : toBase64Url p = toBase64Url q) : p = q := by
  have := congrArg fromBase64Url h
  rwa [fromBase64Url_toBase64Url p hp, fromBase64Url_toBase64Url q hq] at this

theorem takeWhile_all_append {p : Char → Bool} :
    ∀ (l1 : List Char) (c : Char) (l2 : List Char), (∀ x ∈ l1, p x = true) →
      p c = false → (l1 ++ c :: l2).takeWhile p = l1
  | [], c, l2, _, hc => by simp [List.takeWhile_cons, hc]
  | x :: xs, c, l2, h, hc => by
      have hx : p x = true := h x (by simp)
      simp only [List.cons_append, List.takeWhile_cons, hx, if_true]
      rw [takeWhile_all_append xs c l2 (fun y hy => h y (by simp [hy])) hc]

theorem isDig_dash : isDig '-' = false := by decide

theorem findRangeMatch_header (d1 d2 : List Char) (h1 : ∀ c ∈ d1, isDig c = true)
    (h2 : ∀ c ∈ d2, isDig c = true) :
    findRangeMatch (rangeHeader d1 d2) = some (d1, d2) := by
  show (match matchRangeAt (rangeHeader d1 d2) with
        | some r => some r
        | none => findRangeMatch ("ytes=".toList ++ d1 ++ '-' :: d2)) = some (d1, d2)
  have hmatch : matchRangeAt (rangeHeader d1 d2) = some (d1, d2) := by
    show (let d := (d1 ++ '-' :: d2).takeWhile isDig
          match (d1 ++ '-' :: d2).drop d.length with
          | '-' :: t2 => some (d, t2.takeWhile isDig)
          | _ => none) = some (d1, d2)
    rw [show ((d1 ++ '-' :: d2).takeWhile isDig) = d1 from
      takeWhile_all_append d1 '-' d2 h1 isDig_dash]
    show (match List.drop d1.length (d1 ++ '-' :: d2) with
          | '-' :: t2 => some (d1, List.takeWhile isDig t2)
          | _ => none) = some (d1, d2)
    rw [List.drop_left]
    have : d2.takeWhile isDig = d2 := List.takeWhile_eq_self_iff.mpr h2
    simp [this]
  rw [hmatch]

theorem isDig_iff (c : Char) : isDig c = true ↔ 48 ≤ c.toNat ∧ c.toNat ≤ 57 := by
  simp [isDig]

theorem digitsVal_foldl_nonneg :
    ∀ (l : List Char) (acc : Int), 0 ≤ acc → (∀ c ∈ l, isDig c = true) →
      0 ≤ l.foldl (fun acc c => acc * 10 + ((c.toNat : Int) - 48)) acc
  | [], acc, ha, _ => ha
  | c :: cs, acc, ha, h => by
      have hc := (isDig_iff c).mp (h c (by simp))
      refine digitsVal_foldl_nonneg cs _ ?_ (fun d hd => h d (by simp [hd]))
      show 0 ≤ acc * 10 + ((c.toNat : Int) - 48)
      omega

theorem digitsVal_nonneg (l : List Char) (h : ∀ c ∈ l, isDig c = true) :
    0 ≤ digitsVal l :=
  digitsVal_foldl_nonneg l 0 le_rfl h

theorem resolveRange_header_eq_spec (d1 d2 : List Char) (S : Int)
    (h1 : ∀ c ∈ d1, isDig c = true) (h2 : ∀ c ∈ d2, isDig c = true)
    (hne : d1 ≠ [] ∨ d2 ≠ []) :
    resolveRange (some (rangeHeader d1 d2)) S =
      specResolveRange (if d1 = [] then none else some (digitsVal d1))
        (if d2 = [] then none else some (digitsVal d2)) S := by
  simp only [resolveRange, findRangeMatch_header d1 d2 h1 h2]
  rcases eq_or_ne d1 [] with rfl | hd1 <;> rcases eq_or_ne d2 [] with rfl | hd2
  · rcases hne with h | h <;> exact absurd rfl h
  · simp [List.isEmpty_iff, hd2, specResolveRange, boundsCheck,
      specResolveRange.specBoundsCheck]
  · simp [List.isEmpty_iff, hd1, specResolveRange, boundsCheck,
      specResolveRange.specBoundsCheck]
  · simp [List.isEmpty_iff, hd1, hd2, specResolveRange, boundsCheck,
      specResolveRange.specBoundsCheck]

theorem specBoundsCheck_ne_window_of (st en S a b : Int)
    (h : st < 0 ∨ en ≥ S ∨ st > en) :
    specResolveRange.specBoundsCheck st en S ≠ RangeResult.window a b := by
  unfold specResolveRange.specBoundsCheck
  rw [if_pos h]
  simp

theorem specResolveRange_zero_ne_window (st? en? : Option Int)
    (hst : ∀ v, st? = some v → 0 ≤ v) (hen : ∀ v, en? = some v → 0 ≤ v)
    (a b : Int) : specResolveRange st? en? 0 ≠ RangeResult.window a b := by
  rcases st? with _ | st <;> rcases en? with _ | en
  · simp [specResolveRange]
  · by_cases he : en = 0
    · simp [specResolveRange, he]
    · simp only [specResolveRange, if_neg he]
      apply specBoundsCheck_ne_window_of
      right; right
      have h0 : (0 : Int) ≤ (0 - en) ⊔ 0 := le_max_right _ _
      generalize (0 - en) ⊔ 0 = m at h0 ⊢
      omega
  · simp only [specResolveRange]
    apply specBoundsCheck_ne_window_of
    have := hst st rfl
    omega
  · simp only [specResolveRange]
    apply specBoundsCheck_ne_window_of
    have := hen en rfl
    omega

/-- C2: on every header in the single-range grammar, the resolver computes the
window exactly as §4.3 specifies — `start-end` gives `[start, end]`, `start-`
gives `[start, S-1]`, `-n` gives `Unsatisfiable` for `n = 0` and
`[max(S-n, 0), S-1]` otherwise — followed by the uniform bounds check
(`Unsatisfiable` iff `start < 0`, `end ≥ S` or `start > end`); in particular a
file of size 0 never yields a satisfiable bounded or suffix range. -/
theorem c2_resolver_matches_spec (d1 d2 : List Char) (S : Int)
    (h1 : ∀ c ∈ d1, isDig c = true) (h2 : ∀ c ∈ d2, isDig c = true)
    (hne : d1 ≠ [] ∨ d2 ≠ []) :
    resolveRange (some (rangeHeader d1 d2)) S =
      specResolveRange (if d1 = [] then none else some (digitsVal d1))
        (if d2 = [] then none else some (digitsVal d2)) S ∧
    (S = 0 → ∀ a b, resolveRange (some (rangeHeader d1 d2)) S ≠ .window a b) := by
  have heq := resolveRange_header_eq_spec d1 d2 S h1 h2 hne
  refine ⟨heq, ?_⟩
  rintro rfl a b
  rw [heq]
  refine specResolveRange_zero_ne_window _ _ ?_ ?_ a b
  · intro v hv
    by_cases hd : d1 = []
    · simp [hd] at hv
    · rw [if_neg hd, Option.some.injEq] at hv
      exact hv ▸ digitsVal_nonneg d1 h1
  · intro v hv
    by_cases hd : d2 = []
    · simp [hd] at hv
    · rw [if_neg hd, Option.some.injEq] at hv
      exact hv ▸ digitsVal_nonneg d2 h2

/-- Witness for `c2_resolver_matches_spec` at the concrete header
`bytes=500-` against size 1000. -/
theorem c2_resolver_matches_spec_witness :
    resolveRange (some (rangeHeader "500".toList [])) 1000 =
      specResolveRange (if ("500".toList : List Char) = [] then none
          else some (digitsVal "500".toList))
        (if ([] : List Char) = [] then none else some (digitsVal [])) 1000 ∧
    ((1000 : Int) = 0 →
      ∀ a b, resolveRange (some (rangeHeader "500".toList [])) 1000 ≠ .window a b) :=
  c2_resolver_matches_spec "500".toList [] 1000 (by decide) (by decide)
    (Or.inl (by decide))

example : resolveRange (some "bytes=0-0".toList) 1000 = .window 0 0 := by decide

example : resolveRange (some "bytes=500-".toList) 1000 = .window 500 999 := by decide

example : resolveRange (some "bytes=-500".toList) 1000 = .window 500 999 := by decide

example : resolveRange (some "bytes=-0".toList) 1000 = .unsatisfiable := by decide

example : resolveRange (some "bytes=2000-3000".toList) 1000 = .unsatisfiable := by decide

example : resolveRange (some "bytes=500-100".toList) 1000 = .unsatisfiable := by decide

example : resolveRange (some "bytes=abc".toList) 1000 = .unsatisfiable := by decide

example : resolveRange none 0 = .fullFile := by decide

/-! ## Claims -/
/-- C4: for every relative path (as UTF-8 bytes), decoding the encoding gives
the path back; the token uses only URL-path-safe characters (no `'='`
padding, nothing needing percent-encoding); and the (deterministic) encoding
is injective. -/
theorem c4_codec_roundtrip_injective (p : List Nat) (h : ∀ b ∈ p, b < 256) :
    fromBase64Url (toBase64Url p) = p ∧
    (∀ c ∈ toBase64Url p, urlPathSafeChar c = true) ∧
    (∀ q : List Nat, (∀ b ∈ q, b < 256) → toBase64Url p = toBase64Url q →
      p = q) :=
  ⟨fromBase64Url_toBase64Url p h, toBase64Url_chars_safe p h,
   fun _ hq he => toBase64Url_injective h hq he⟩

/-- Witness for `c4_codec_roundtrip_injective` at `sub/clip.mp4`. -/
theorem c4_codec_roundtrip_injective_witness :
    fromBase64Url (toBase64Url (strB "sub/clip.mp4")) = strB "sub/clip.mp4" :=
  (c4_codec_roundtrip_injective (strB "sub/clip.mp4") (by decide)).1

/-- C3 counterexample: `bytes=0-100,200-300` is outside the single-range
grammar (two comma-separated ranges), yet the resolver accepts it as the
window `[0, 100]` instead of rejecting with `Unsatisfiable`: the regex is
unanchored and the first match wins. -/
theorem c3_counterexample_multirange_accepted :
    resolveRange (some "bytes=0-100,200-300".toList) 1000 =
      RangeResult.window 0 100 := by decide

/-- C3 amended: the resolver returns `Unsatisfiable` exactly when the
unanchored pattern `bytes=<digits*>-<digits*>` matches nowhere in the header
(in particular for `bytes=abc`); a header containing a match anywhere — with
trailing characters, a leading prefix, or extra comma-separated ranges — is
instead processed from its first match. -/
theorem c3_amended_unmatched_rejected (s : List Char) (S : Int)
    (h : findRangeMatch s = none) :
    resolveRange (some s) S = RangeResult.unsatisfiable := by
  simp [resolveRange, h]

/-- Witness for `c3_amended_unmatched_rejected` at `bytes=abc`. -/
theorem c3_amended_unmatched_rejected_witness :
    resolveRange (some "bytes=abc".toList) 1000 = RangeResult.unsatisfiable :=
  c3_amended_unmatched_rejected "bytes=abc".toList 1000 (by decide)

/-- C6: with no Range header, the handler resolves to the full file: status
200, `Content-Type`, `Content-Length = fileSize`, `Accept-Ranges: bytes`, and
the entire file body — whatever the size. -/
theorem c6_no_range_streams_full_file (world : FsNode) (root : List (List Nat))
    (db : List Nat → Option (List Char)) (id : List Char) (content : List Nat)
    (hnav : navigate world (joinPath root (fromBase64Url id)) =
      some (.file content)) :
    streamHandler world root db id none =
      { status := 200,
        contentType :=
          some (mimeLookup db (joinSegs (joinPath root (fromBase64Url id)))),
        contentLength := some (content.length : Int),
        contentRange := none, acceptRanges := true, body := content } := by
  simp [streamHandler, hnav, respond, resolveRange, nodeSize, nodeContent]

/-- Witness for `c6_no_range_streams_full_file` on `/m/a.mp4`. -/
theorem c6_no_range_streams_full_file_witness :
    streamHandler demoWorld demoRoot demoDb demoId none =
      { status := 200, contentType := some "application/octet-stream".toList,
        contentLength := some 3, contentRange := none, acceptRanges := true,
        body := [10, 20, 30] } :=
  (c6_no_range_streams_full_file demoWorld demoRoot demoDb demoId
    [10, 20, 30] rfl).trans (by decide)

/-- C5: when the Range header resolves to the window `[s, e]` against the
file's size, the handler emits 206 with `Content-Range: bytes s-e/S`,
`Accept-Ranges: bytes`, `Content-Length = e - s + 1`, a `Content-Type`, and
streams exactly the bytes `[s, e]` of the file (inclusive). -/
theorem c5_window_partial_content (world : FsNode) (root : List (List Nat))
    (db : List Nat → Option (List Char)) (id : List Char)
    (range : Option (List Char)) (content : List Nat) (s e : Int)
    (hnav : navigate world (joinPath root (fromBase64Url id)) =
      some (.file content))
    (hres : resolveRange range (content.length : Int) = .window s e) :
    streamHandler world root db id range =
      { status := 206,
        contentType :=
          some (mimeLookup db (joinSegs (joinPath root (fromBase64Url id)))),
        contentLength := some (e - s + 1),
        contentRange := some (contentRangeWindow s e (content.length : Int)),
        acceptRanges := true,
        body := (content.drop s.toNat).take (e - s + 1).toNat } := by
  simp [streamHandler, hnav, nodeSize, nodeContent, hres, respond]

/-- Witness for `c5_window_partial_content`: `bytes=1-2` on the 3-byte
`/m/a.mp4`. -/
theorem c5_window_partial_content_witness :
    streamHandler demoWorld demoRoot demoDb demoId (some "bytes=1-2".toList) =
      { status := 206, contentType := some "application/octet-stream".toList,
        contentLength := some 2,
        contentRange := some "bytes 1-2/3".toList, acceptRanges := true,
        body := [20, 30] } :=
  (c5_window_partial_content demoWorld demoRoot demoDb demoId
    (some "bytes=1-2".toList) [10, 20, 30] 1 2 rfl
    (by decide)).trans (by decide)

/-- C7: whenever the resolution is `Unsatisfiable` (malformed header or
out-of-bounds window), the response is 416 with
`Content-Range: bytes */fileSize` and an empty body. -/
theorem c7_unsatisfiable_416 (world : FsNode) (root : List (List Nat))
    (db : List Nat → Option (List Char)) (id : List Char)
    (range : Option (List Char)) (node : FsNode)
    (hnav : navigate world (joinPath root (fromBase64Url id)) = some node)
    (hres : resolveRange range (nodeSize node : Int) = .unsatisfiable) :
    (streamHandler world root db id range).status = 416 ∧
    (streamHandler world root db id range).contentRange =
      some (contentRangeStar (nodeSize node : Int)) ∧
    (streamHandler world root db id range).body = [] := by
  simp [streamHandler, hnav, hres, respond]

/-- Witness for `c7_unsatisfiable_416`: `bytes=5-9` on the 3-byte
`/m/a.mp4`. -/
theorem c7_unsatisfiable_416_witness :
    (streamHandler demoWorld demoRoot demoDb demoId
        (some "bytes=5-9".toList)).status = 416 ∧
    (streamHandler demoWorld demoRoot demoDb demoId
        (some "bytes=5-9".toList)).contentRange =
      some (contentRangeStar ((nodeSize (.file [10, 20, 30]) : Nat) : Int)) ∧
    (streamHandler demoWorld demoRoot demoDb demoId
        (some "bytes=5-9".toList)).body = [] :=
  c7_unsatisfiable_416 demoWorld demoRoot demoDb demoId
    (some "bytes=5-9".toList) (.file [10, 20, 30]) rfl
    (by decide)

/-- C10: the decode step never throws, so the 400 branch of the stream
handler is unreachable — every id, however malformed, reaches the existence
check and a missing file surfaces as 404, never 400. -/
theorem c10_no_400_missing_is_404 (world : FsNode) (root : List (List Nat))
    (db : List Nat → Option (List Char)) (id : List Char)
    (range : Option (List Char)) :
    (streamHandler world root db id range).status ≠ 400 ∧
    (navigate world (joinPath root (fromBase64Url id)) = none →
      (streamHandler world root db id range).status = 404) := by
  constructor
  · unfold streamHandler
    cases hnav : navigate world (joinPath root (fromBase64Url id)) with
    | none => simp [hnav]
    | some node => cases hres : resolveRange range (nodeSize node) <;>
        simp [hnav, hres, respond]
  · intro hnav
    simp [streamHandler, hnav]

/-- Witness for `c10_no_400_missing_is_404`: an id decoding to a missing
file gives 404. -/
theorem c10_no_400_missing_is_404_witness :
    (streamHandler demoWorld demoRoot demoDb (toBase64Url (strB "zzz.mp4"))
        none).status ≠ 400 ∧
    (streamHandler demoWorld demoRoot demoDb (toBase64Url (strB "zzz.mp4"))
        none).status = 404 :=
  ⟨(c10_no_400_missing_is_404 demoWorld demoRoot demoDb
      (toBase64Url (strB "zzz.mp4")) none).1,
   (c10_no_400_missing_is_404 demoWorld demoRoot demoDb
      (toBase64Url (strB "zzz.mp4")) none).2 rfl⟩

theorem listMediaChildren_unreadable_middle
    (db : List Nat → Option (List Char)) (cs1 : List (List Nat × FsNode)) :
    ∀ (cs2 : List (List Nat × FsNode)) (n : List Nat)
      (sub : List (List Nat × FsNode)) (rel : List (List Nat)),
      listMediaChildren db (cs1 ++ (n, FsNode.dir false sub) :: cs2) rel =
        listMediaChildren db (cs1 ++ cs2) rel := by
  induction cs1 with
  | nil =>
      intro cs2 n sub rel
      simp [listMediaChildren, listMedia]
  | cons hd tl ih =>
      intro cs2 n sub rel
      obtain ⟨m, c⟩ := hd
      cases c with
      | file content =>
          simp only [List.cons_append, listMediaChildren, List.append_eq]
          rw [ih cs2 n sub rel]
      | dir ro cs =>
          simp only [List.cons_append, listMediaChildren, List.append_eq]
          rw [ih cs2 n sub rel]

/-- C8: a directory whose `readdir` fails contributes zero entries — the
whole scan of an unreadable root is empty, and an unreadable subdirectory
anywhere in a readable directory's entry list leaves the rest of the
listing untouched; the error is never propagated. -/
theorem c8_unreadable_subtree_empty (db : List Nat → Option (List Char)) :
    (∀ (cs : List (List Nat × FsNode)) (rel : List (List Nat)),
      listMedia db (.dir false cs) rel = []) ∧
    (∀ (cs1 cs2 : List (List Nat × FsNode)) (n : List Nat) (sub : _)
      (rel : List (List Nat)),
      listMedia db (.dir true (cs1 ++ (n, FsNode.dir false sub) :: cs2)) rel =
        listMedia db (.dir true (cs1 ++ cs2)) rel) := by
  refine ⟨fun cs rel => rfl, fun cs1 cs2 n sub rel => ?_⟩
  simp only [listMedia]
  exact listMediaChildren_unreadable_middle db cs1 cs2 n sub rel

/-- C1 is violated by the code: the decoded path is joined against the media
root with no containment check, so the token for `../secret.mp4` resolves to
`/secret.mp4` — outside the root `/media` — yet `getMediaById` stats it and
returns its metadata (200 on `GET /media/:id`) and the stream handler serves
its bytes with 200, instead of the required `NotFound` with no filesystem
access outside the root. -/
theorem c1_traversal_escapes_root :
    (getMediaById evilWorld evilRoot demoDb evilId).map MediaInfo.size =
      some 3 ∧
    mediaByIdStatus evilWorld evilRoot demoDb evilId = 200 ∧
    (streamHandler evilWorld evilRoot demoDb evilId none).status = 200 ∧
    (streamHandler evilWorld evilRoot demoDb evilId none).body = [9, 9, 9] ∧
    (joinPath evilRoot (fromBase64Url evilId)).take evilRoot.length ≠
      evilRoot := by decide

/-! ### Path and navigation lemmas for the catalog/lookup agreement -/
theorem navigate_append (p q : List (List Nat)) :
    ∀ node : FsNode, navigate node (p ++ q) =
      (navigate node p).bind (fun m => navigate m q) := by
  induction p with
  | nil => intro node; simp [navigate]
  | cons seg p' ih =>
      intro node
      cases node with
      | file c => simp [navigate]
      | dir ro cs =>
          simp only [List.cons_append, navigate]
          cases h : findChild seg cs with
          | none => simp [h]
          | some child => simp [h, ih child]

theorem plainSegB_iff (s : List Nat) :
    plainSegB s = true ↔ s ≠ [] ∧ s ≠ [46] ∧ s ≠ [46, 46] := by
  simp [plainSegB, and_assoc]

theorem validNameB_parts {n : List Nat} (h : validNameB n = true) :
    plainSegB n = true ∧ ∀ b ∈ n, b < 256 ∧ b ≠ 47 := by
  simpa [validNameB, List.all_eq_true, Bool.and_eq_true, bne_iff_ne,
    decide_eq_true_eq, and_assoc, plainSegB] using h

theorem normSegs_plain (segs : List (List Nat))
    (h : ∀ s ∈ segs, plainSegB s = true) : normSegs segs = segs := by
  have key : ∀ (l : List (List Nat)) (acc : List (List Nat)),
      (∀ s ∈ l, plainSegB s = true) →
      List.foldl
        (fun acc seg =>
          if seg = [] ∨ seg = [46] then acc
          else if seg = [46, 46] then acc.dropLast
          else acc ++ [seg])
        acc l = acc ++ l := by
    intro l
    induction l with
    | nil => intro acc _; simp
    | cons s l' ih =>
        intro acc hall
        have hs := (plainSegB_iff s).mp (hall s (by simp))
        simp only [List.foldl_cons]
        rw [if_neg (not_or.mpr ⟨hs.1, hs.2.1⟩), if_neg hs.2.2,
          ih _ (fun t ht => hall t (by simp [ht]))]
        simp
  simpa [normSegs] using key segs [] h

theorem splitSlash_no_slash : ∀ l : List Nat, (∀ b ∈ l, b ≠ 47) →
    splitSlash l = [l]
  | [], _ => rfl
  | b :: rest, h => by
      have hb : b ≠ 47 := h b (by simp)
      simp only [splitSlash, if_neg hb]
      rw [splitSlash_no_slash rest (fun x hx => h x (by simp [hx]))]

theorem splitSlash_append_slash : ∀ (s t : List Nat), (∀ b ∈ s, b ≠ 47) →
    splitSlash (s ++ 47 :: t) = s :: splitSlash t
  | [], t, _ => by simp [splitSlash]
  | b :: s', t, h => by
      have hb : b ≠ 47 := h b (by simp)
      simp only [List.cons_append, splitSlash, if_neg hb, List.append_eq]
      rw [splitSlash_append_slash s' t (fun x hx => h x (by simp [hx]))]

theorem splitSlash_joinSegs : ∀ segs : List (List Nat), segs ≠ [] →
    (∀ s ∈ segs, ∀ b ∈ s, b ≠ 47) → splitSlash (joinSegs segs) = segs
  | [], h, _ => absurd rfl h
  | [s], _, h => by
      simp only [joinSegs]
      exact splitSlash_no_slash s (h s (by simp))
  | s :: s2 :: rest, _, h => by
      show splitSlash (s ++ 47 :: joinSegs (s2 :: rest)) = s :: s2 :: rest
      rw [splitSlash_append_slash s _ (h s (by simp)),
        splitSlash_joinSegs (s2 :: rest) (by simp)
          (fun t ht => h t (by simp [ht]))]

theorem joinSegs_bytes_lt : ∀ segs : List (List Nat),
    (∀ s ∈ segs, ∀ b ∈ s, b < 256) → ∀ b ∈ joinSegs segs, b < 256
  | [], _, b, hb => by simp [joinSegs] at hb
  | [s], h, b, hb => h s (by simp) b (by simpa [joinSegs] using hb)
  | s :: s2 :: rest, h, b, hb => by
      rcases (by simpa [joinSegs] using hb :
          b ∈ s ∨ b = 47 ∨ b ∈ joinSegs (s2 :: rest)) with h1 | rfl | h3
      · exact h s (by simp) b h1
      · omega
      · exact joinSegs_bytes_lt (s2 :: rest)
          (fun t ht => h t (by simp [ht])) b h3

theorem lastSeg_joinSegs_concat (segs : List (List Nat)) (name : List Nat)
    (h : ∀ s ∈ segs ++ [name], ∀ b ∈ s, b ≠ 47) :
    lastSeg (joinSegs (segs ++ [name])) = name := by
  unfold lastSeg
  rw [splitSlash_joinSegs (segs ++ [name]) (by simp) h]
  simp

theorem lastSeg_self (name : List Nat) (h : ∀ b ∈ name, b ≠ 47) :
    lastSeg name = name := by
  unfold lastSeg
  rw [splitSlash_no_slash name h]
  rfl

theorem extname_congr {p q : List Nat} (h : lastSeg p = lastSeg q) :
    extname p = extname q := by
  simp only [extname, h]

theorem mimeLookup_congr (db : List Nat → Option (List Char)) {p q : List Nat}
    (h : extname p = extname q) : mimeLookup db p = mimeLookup db q := by
  simp only [mimeLookup, h]

theorem findChild_of_mem : ∀ (cs : List (List Nat × FsNode)) (n : List Nat)
    (c : FsNode), (n, c) ∈ cs → namesNodup cs = true → findChild n cs = some c
  | [], n, c, hmem, _ => absurd hmem (by simp)
  | (m, d) :: rest, n, c, hmem, hnd => by
      obtain ⟨hall, hrest⟩ : rest.all (fun p => !(p.1 == m)) = true ∧
          namesNodup rest = true := by
        simpa [namesNodup, Bool.and_eq_true] using hnd
      rcases List.mem_cons.mp hmem with heq | hmem'
      · obtain ⟨rfl, rfl⟩ := Prod.mk.injEq .. |>.mp heq.symm
        simp [findChild]
      · have hne : m ≠ n := by
          have hx := List.all_eq_true.mp hall (n, c) hmem'
          simp only [Bool.not_eq_eq_eq_not, Bool.not_true, beq_eq_false_iff_ne,
            ne_eq] at hx
          exact fun hc => hx (hc ▸ rfl)
        simp only [findChild, if_neg hne]
        exact findChild_of_mem rest n c hmem' hrest

theorem findChild_some_mem_names : ∀ (cs : List (List Nat × FsNode))
    (s : List Nat) (c : FsNode), findChild s cs = some c → ∃ p ∈ cs, p.1 = s
  | [], s, c, h => by simp [findChild] at h
  | (m, d) :: rest, s, c, h => by
      by_cases hm : m = s
      · exact ⟨(m, d), by simp, hm⟩
      · simp only [findChild, if_neg hm] at h
        obtain ⟨p, hp, hps⟩ := findChild_some_mem_names rest s c h
        exact ⟨p, by simp [hp], hps⟩

/-- Navigation into a directory listing is unchanged by a new entry whose
name differs from every name in the listing. -/
theorem navigate_cons_entry (n : List Nat) (chd : FsNode)
    (rest : List (List Nat × FsNode)) (seg : List Nat) (path : List (List Nat))
    (res : FsNode) (hall : rest.all (fun p => !(p.1 == n)) = true)
    (h : navigate (FsNode.dir true rest) (seg :: path) = some res) :
    navigate (FsNode.dir true ((n, chd) :: rest)) (seg :: path) = some res := by
  simp only [navigate] at h ⊢
  cases hf : findChild seg rest with
  | none => rw [hf] at h; simp at h
  | some child =>
      rw [hf] at h
      obtain ⟨p, hp, hps⟩ := findChild_some_mem_names rest seg child hf
      have hne : n ≠ seg := by
        have hx := List.all_eq_true.mp hall p hp
        simp only [Bool.not_eq_eq_eq_not, Bool.not_true, beq_eq_false_iff_ne,
          ne_eq] at hx
        exact fun hc => hx (by rw [hps, hc])
      simp only [findChild, if_neg hne, hf]
      exact h

theorem wfNodeB_dir_parts {ro : Bool} {cs : List (List Nat × FsNode)}
    (h : wfNodeB (.dir ro cs) = true) :
    namesNodup cs = true ∧ wfChildrenB cs = true := by
  simpa [wfNodeB, Bool.and_eq_true] using h

theorem wfChildrenB_cons_parts {n : List Nat} {c : FsNode}
    {rest : List (List Nat × FsNode)}
    (h : wfChildrenB ((n, c) :: rest) = true) :
    validNameB n = true ∧ wfNodeB c = true ∧ wfChildrenB rest = true := by
  simpa [wfChildrenB, Bool.and_eq_true, and_assoc] using h

theorem namesNodup_cons_parts {n : List Nat} {c : FsNode}
    {rest : List (List Nat × FsNode)}
    (h : namesNodup ((n, c) :: rest) = true) :
    rest.all (fun p => !(p.1 == n)) = true ∧ namesNodup rest = true := by
  simpa [namesNodup, Bool.and_eq_true] using h

mutual

theorem listMedia_entrySpec (db : List Nat → Option (List Char)) :
    ∀ (node : FsNode) (rel : List (List Nat)) (e : MediaEntry),
      wfNodeB node = true → e ∈ listMedia db node rel → EntrySpec db node rel e
  | .file _, _, _, _, hmem => absurd hmem (by simp [listMedia])
  | .dir false _, _, _, _, hmem => absurd hmem (by simp [listMedia])
  | .dir true cs, rel, e, hwf, hmem => by
      obtain ⟨hnd, hch⟩ := wfNodeB_dir_parts hwf
      exact listMediaChildren_entrySpec db cs rel e hnd hch
        (by simpa [listMedia] using hmem)

theorem listMediaChildren_entrySpec (db : List Nat → Option (List Char)) :
    ∀ (cs : List (List Nat × FsNode)) (rel : List (List Nat)) (e : MediaEntry),
      namesNodup cs = true → wfChildrenB cs = true →
      e ∈ listMediaChildren db cs rel → EntrySpec db (.dir true cs) rel e
  | [], _, _, _, _, hmem => absurd hmem (by simp [listMediaChildren])
  | (n, .dir ro sub) :: rest, rel, e, hnd, hch, hmem => by
      obtain ⟨hvn, hwfc, hwfrest⟩ := wfChildrenB_cons_parts hch
      obtain ⟨hall, hndrest⟩ := namesNodup_cons_parts hnd
      rcases (by simpa [listMediaChildren] using hmem :
          e ∈ listMedia db (.dir ro sub) (rel ++ [n]) ∨
          e ∈ listMediaChildren db rest rel) with hm | hm
      · obtain ⟨segs, name, content, hnav, hnames, hid, hname, hpath, hsize,
          hmime, hext⟩ :=
          listMedia_entrySpec db (.dir ro sub) (rel ++ [n]) e hwfc hm
        have hassoc : rel ++ ((n :: segs) ++ [name]) =
            (rel ++ [n]) ++ (segs ++ [name]) := by simp
        refine ⟨n :: segs, name, content, ?_, ?_, ?_, hname, ?_, hsize,
          hmime, hext⟩
        · show navigate (.dir true ((n, .dir ro sub) :: rest))
            (n :: (segs ++ [name])) = some (.file content)
          simp only [navigate, findChild, if_pos rfl]
          exact hnav
        · intro s hs
          rcases (by simpa using hs : s = n ∨ s ∈ segs ++ [name]) with rfl | hs'
          · exact hvn
          · exact hnames s hs'
        · rw [hid, hassoc]
        · rw [hpath, hassoc]
      · obtain ⟨segs, name, content, hnav, hnames, hid, hname, hpath, hsize,
          hmime, hext⟩ :=
          listMediaChildren_entrySpec db rest rel e hndrest hwfrest hm
        refine ⟨segs, name, content, ?_, hnames, hid, hname, hpath, hsize,
          hmime, hext⟩
        rcases segs with _ | ⟨s0, segs'⟩
        · exact navigate_cons_entry n _ rest name [] _ hall
            (by simpa using hnav)
        · exact navigate_cons_entry n _ rest s0 (segs' ++ [name]) _ hall
            (by simpa using hnav)
  | (n, .file content) :: rest, rel, e, hnd, hch, hmem => by
      obtain ⟨hvn, _, hwfrest⟩ := wfChildrenB_cons_parts hch
      obtain ⟨hall, hndrest⟩ := namesNodup_cons_parts hnd
      have hsplit : e ∈ (if isVideoExt (lowerBytes (extname n)) then
          [{ id := toBase64Url (joinSegs (rel ++ [n])), name := n,
             path := joinSegs (rel ++ [n]), size := content.length,
             mime := mimeLookup db n }] else ([] : List MediaEntry)) ∨
          e ∈ listMediaChildren db rest rel := by
        simpa [listMediaChildren] using hmem
      rcases hsplit with hm | hm
      · by_cases hx : isVideoExt (lowerBytes (extname n)) = true
        · rw [if_pos hx] at hm
          have he := List.mem_singleton.mp hm
          subst he
          refine ⟨[], n, content, ?_, ?_, by simp, rfl, by simp, rfl, rfl, hx⟩
          · show navigate (.dir true ((n, .file content) :: rest)) [n] =
              some (.file content)
            simp [navigate, findChild]
          · intro s hs
            have : s = n := by simpa using hs
            subst this
            exact hvn
        · rw [if_neg hx] at hm
          exact absurd hm (by simp)
      · obtain ⟨segs, name, fcontent, hnav, hnames, hid, hname, hpath, hsize,
          hmime, hext⟩ :=
          listMediaChildren_entrySpec db rest rel e hndrest hwfrest hm
        refine ⟨segs, name, fcontent, ?_, hnames, hid, hname, hpath, hsize,
          hmime, hext⟩
        rcases segs with _ | ⟨s0, segs'⟩
        · exact navigate_cons_entry n _ rest name [] _ hall
            (by simpa using hnav)
        · exact navigate_cons_entry n _ rest s0 (segs' ++ [name]) _ hall
            (by simpa using hnav)

end

/-- C9 amended: looking up a catalog entry's id against the unchanged tree
returns 200 and metadata with the same `id`, `size` and `mime`; but its
`name` equals the catalog entry's `path` (the root-relative path) rather
than the base name, and the lookup object carries no `path` field at all
(compare `MediaInfo` with `MediaEntry`). The two names agree only for files
directly in the root. -/
theorem c9_amended_lookup_matches_catalog (world mediaNode : FsNode)
    (root : List (List Nat)) (db : List Nat → Option (List Char))
    (e : MediaEntry) (hroot : ∀ s ∈ root, plainSegB s = true)
    (hnav : navigate world root = some mediaNode)
    (hwf : wfNodeB mediaNode = true) (he : e ∈ listMedia db mediaNode []) :
    getMediaById world root db e.id =
      some { id := e.id, name := e.path, size := e.size, mime := e.mime } ∧
    mediaByIdStatus world root db e.id = 200 := by
  obtain ⟨segs, name, content, hnavE, hnames, hid, hname, hpath, hsize,
    hmime, hext⟩ := listMedia_entrySpec db mediaNode [] e hwf he
  simp only [List.nil_append] at hid hpath
  have hbytes : ∀ s ∈ segs ++ [name], ∀ b ∈ s, b < 256 ∧ b ≠ 47 :=
    fun s hs => (validNameB_parts (hnames s hs)).2
  have hlt : ∀ b ∈ joinSegs (segs ++ [name]), b < 256 :=
    joinSegs_bytes_lt _ (fun s hs b hb => (hbytes s hs b hb).1)
  have hslash : ∀ s ∈ segs ++ [name], ∀ b ∈ s, b ≠ 47 :=
    fun s hs b hb => (hbytes s hs b hb).2
  have hdec : fromBase64Url e.id = joinSegs (segs ++ [name]) := by
    rw [hid]
    exact fromBase64Url_toBase64Url _ hlt
  have hsplit : splitSlash (joinSegs (segs ++ [name])) = segs ++ [name] :=
    splitSlash_joinSegs _ (by simp) hslash
  have hplain : ∀ s ∈ root ++ (segs ++ [name]), plainSegB s = true := by
    intro s hs
    rcases List.mem_append.mp hs with h1 | h2
    · exact hroot s h1
    · exact (validNameB_parts (hnames s h2)).1
  have hjoin : joinPath root (joinSegs (segs ++ [name])) =
      root ++ (segs ++ [name]) := by
    unfold joinPath
    rw [hsplit]
    exact normSegs_plain _ hplain
  have hnavFull : navigate world (root ++ (segs ++ [name])) =
      some (.file content) := by
    rw [navigate_append, hnav]
    simpa using hnavE
  have hlastJ : lastSeg (joinSegs (segs ++ [name])) = name :=
    lastSeg_joinSegs_concat segs name hslash
  have hlastN : lastSeg name = name := lastSeg_self name (hslash name (by simp))
  have hextEq : extname (joinSegs (segs ++ [name])) = extname name :=
    extname_congr (by rw [hlastJ, hlastN])
  have hres : getMediaById world root db e.id =
      some { id := e.id, name := joinSegs (segs ++ [name]),
             size := content.length,
             mime := mimeLookup db (joinSegs (segs ++ [name])) } := by
    simp only [getMediaById, hdec, hjoin, hnavFull, isFileNode, nodeSize]
    rw [hextEq, hext]
    simp
  have hfinal : getMediaById world root db e.id =
      some { id := e.id, name := e.path, size := e.size, mime := e.mime } := by
    rw [hres, hpath, hsize, hmime, mimeLookup_congr db hextEq]
  refine ⟨hfinal, ?_⟩
  simp [mediaByIdStatus, hfinal]

/-- Witness for `c9_amended_lookup_matches_catalog` on the catalog entry of
`/m/sub/b.mkv`. -/
theorem c9_amended_lookup_matches_catalog_witness :
    getMediaById subWorld subRoot demoDb subEntry.id =
      some { id := subEntry.id, name := subEntry.path, size := subEntry.size,
             mime := subEntry.mime } ∧
    mediaByIdStatus subWorld subRoot demoDb subEntry.id = 200 :=
  c9_amended_lookup_matches_catalog subWorld subNode subRoot demoDb subEntry
    (by decide) rfl (by decide) (by decide)

/-- C9 counterexample: for the file `sub/b.mkv`, the catalog entry has
`name = "b.mkv"` (the base name) and `path = "sub/b.mkv"`, while looking up
the same entry's id returns an object whose `name` is `"sub/b.mkv"` — not
the catalog `name` — and which has no `path` field at all. -/
theorem c9_counterexample_subdir_name_differs :
    (listMedia demoDb subNode []).map MediaEntry.id =
      [toBase64Url (strB "sub/b.mkv")] ∧
    (listMedia demoDb subNode []).map MediaEntry.name = [strB "b.mkv"] ∧
    (listMedia demoDb subNode []).map MediaEntry.path = [strB "sub/b.mkv"] ∧
    (getMediaById subWorld subRoot demoDb
        (toBase64Url (strB "sub/b.mkv"))).map MediaInfo.name =
      some (strB "sub/b.mkv") ∧
    strB "sub/b.mkv" ≠ strB "b.mkv" := by decide

end MediaServer
